import Mathlib

/-!
Shallow embedding of the repository monday_board_extractor
(source files monday_extractor.py and monday_base_class.py).

The repository builds a GraphQL-style query for a list of board ids,
decodes the JSON response, flattens the items of each board into one row
dictionary per item, assembles the rows into a pandas DataFrame, and
renames the DataFrame column labels from column ids to column titles.

Modelling choices:
* A decoded JSON object field that the Python code reads with d[k]
  (raising KeyError when absent) or with d.get(k) / d.get(k, default)
  is modelled as an Option field: none models an absent key.
* A Python dict (with insertion order, where assigning to an existing
  key updates the value in place) is modelled as an association list
  over String with the operations dinsert / dget.
* A pandas DataFrame built from a list of row dictionaries is modelled
  by its column-label list (keys in order of first appearance across the
  rows) and, per row, one cell per column: none models a missing cell
  (NaN), some v a cell holding the Python value v (itself an
  Option String, since the text of a column value may be JSON null).
* Exceptions propagating out of extract are modelled with Except.
* HTTP fetching is abstracted away: extract takes the decoded
  response as its argument, as the claims of the spec do.
-/

namespace Monday

/-- One entry of the column_values of an item: fields id and text; the
code reads col["id"] (raising on absence) and col.get("text"), and the
text may be JSON null. -/
structure ColumnValue where
  id : String
  text : Option String
deriving DecidableEq, Repr

/-- One entry of the columns metadata of a board: fields id and title,
read as col["id"] and col["title"]. -/
structure Column where
  id : String
  title : String
deriving DecidableEq, Repr

/-- An item of the items page of a board. The code reads
item.get("name") and item.get("column_values", default empty list),
both tolerant of absence; the id field is requested but never read. -/
structure Item where
  id : Option String
  name : Option String
  column_values : Option (List ColumnValue)
deriving DecidableEq, Repr

/-- The items_page object; the code reads ["items"] with no default. -/
structure ItemsPage where
  items : Option (List Item)
deriving DecidableEq, Repr

/-- A board of the decoded response. The code reads board["name"] and
board["items_page"] without defaults, and board.get("columns", default
empty list). -/
structure Board where
  name : Option String
  columns : Option (List Column)
  items_page : Option ItemsPage
deriving DecidableEq, Repr

/-- The object under the "data" key of the response. -/
structure ApiData where
  boards : Option (List Board)
deriving DecidableEq, Repr

/-- The decoded JSON response; the code reads data["data"]. -/
structure Response where
  data : Option ApiData
deriving DecidableEq, Repr

/-- Python dict assignment d[k] = v: when k is already a key its
value is updated in place (keeping its position), otherwise the pair is
appended at the end. -/
def dinsert {α : Type} (d : List (String × α)) (k : String) (v : α) :
    List (String × α) :=
  if d.any (fun p => p.1 == k) then
    d.map (fun p => if p.1 == k then (k, v) else p)
  else
    d ++ [(k, v)]

/-- Python dict lookup d.get(k): the value at the first (hence only)
occurrence of key k, if any. -/
def dget {α : Type} (d : List (String × α)) (k : String) : Option α :=
  (d.find? (fun p => p.1 == k)).map (fun p => p.2)

/-- The key list of a dict. -/
def dkeys {α : Type} (d : List (String × α)) : List String :=
  d.map (fun p => p.1)

/-- A row dictionary, mapping a column id (or the label "Item") to the
Python value stored there (none models JSON null / Python None). -/
abbrev Row := List (String × Option String)

/-- The dict comprehension in _extract_to_dataframe: for each col of
column_values, key col["id"], value col.get("text"). -/
def row_dict (column_values : List ColumnValue) : Row :=
  column_values.foldl (fun d col => dinsert d col.id col.text) []

/-- One iteration of the loop in _extract_to_dataframe: build the
row dict from the column values of the item (default empty), then
assign key "Item" to item.get("name"). -/
def itemRow (item : Item) : Row :=
  dinsert (row_dict (item.column_values.getD [])) "Item" item.name

/-- A pandas DataFrame, by its column labels and the cells of its rows.
A cell is none when the dict of the row lacked the column (pandas NaN),
and some v when the dict held Python value v there. -/
structure DataFrame where
  columns : List String
  values : List (List (Option (Option String)))
deriving DecidableEq, Repr

/-- Keys of one row dict appended to an accumulator, first appearance
first, skipping keys already present. -/
def addKeys (acc : List String) (r : Row) : List String :=
  r.foldl (fun a p => if a.contains p.1 then a else a ++ [p.1]) acc

/-- Column labels pandas infers from a list of row dicts: the union of
the keys of the rows, in order of first appearance. -/
def unionKeys (rows : List Row) : List String :=
  rows.foldl addKeys []

/-- pd.DataFrame(rows): columns are the union of the keys of the rows,
and each row supplies one cell per column, NaN (here none) where the
dict of the row lacks the column. -/
def mkDataFrame (rows : List Row) : DataFrame :=
  ⟨unionKeys rows, rows.map (fun r => (unionKeys rows).map (fun c => dget r c))⟩

/-- MondayColumnExtractor._extract_to_dataframe: one row dict per
item, assembled into a DataFrame. -/
def extract_to_dataframe (items : List Item) : DataFrame :=
  mkDataFrame (items.map itemRow)

/-- The label that df.rename(columns=column_map) gives to one column:
its image under the map when present, otherwise the label unchanged. -/
def renameCol (column_map : List (String × String)) (c : String) : String :=
  (dget column_map c).getD c

/-- df.rename(columns=column_map, inplace=True): relabels the column
labels; the cells are untouched. -/
def renameDF (df : DataFrame) (column_map : List (String × String)) :
    DataFrame :=
  ⟨df.columns.map (renameCol column_map), df.values⟩

/-- The dict comprehension in extract: for each col of
board.get("columns", default empty), key col["id"], value col["title"]. -/
def columnMapOf (columns : List Column) : List (String × String) :=
  columns.foldl (fun d col => dinsert d col.id col.title) []

/-- BoardData from monday_base_class.py: a board name paired with
its flattened, relabelled DataFrame. -/
structure BoardData where
  name : String
  data : DataFrame
deriving DecidableEq, Repr

/-- The body of the per-board loop of extract: read board["name"] and
board["items_page"]["items"] (each raising KeyError when absent),
flatten the items, build the column map, rename the DataFrame. -/
def processBoard (board : Board) : Except String BoardData :=
  match board.name with
  | none => .error "KeyError: name"
  | some name =>
    match board.items_page with
    | none => .error "KeyError: items_page"
    | some ip =>
      match ip.items with
      | none => .error "KeyError: items"
      | some items =>
        let df := extract_to_dataframe items
        let column_map := columnMapOf (board.columns.getD [])
        .ok ⟨name, renameDF df column_map⟩

/-- The loop over boards in extract: results are appended in order; the
first raised exception aborts the whole loop with nothing returned. -/
def extractBoards : List Board → Except String (List BoardData)
  | [] => .ok []
  | board :: rest => do
    let r ← processBoard board
    let rs ← extractBoards rest
    .ok (r :: rs)

/-- MondayColumnExtractor.extract, with fetching abstracted to take
the decoded response: read data["data"]["boards"] (each level raising
KeyError when absent) and process each board. -/
def extract (response : Response) : Except String (List BoardData) :=
  match response.data with
  | none => .error "KeyError: data"
  | some d =>
    match d.boards with
    | none => .error "KeyError: boards"
    | some boards => extractBoards boards

/-- Python join with a separator, as used on the stringified board ids. -/
def joinSep (sep : String) : List String → String
  | [] => ""
  | [x] => x
  | x :: y :: xs => x ++ sep ++ joinSep sep (y :: xs)

/-- The f-string text of _build_query before the interpolated ids. -/
def queryTextBefore : String :=
  "\n            query \x7b\n                boards(ids: ["

/-- The f-string text of _build_query after the interpolated ids. -/
def queryTextAfter : String :=
  "]) \x7b\n                    name\n                    columns \x7b\n                        id\n                        title\n                    \x7d\n                    items_page (limit: 500) \x7b\n                        items \x7b\n                            id\n                            name  # This is the \"Item\" column\n                            column_values \x7b\n                                id\n                                text\n                            \x7d\n                        \x7d\n                    \x7d\n                \x7d\n            \x7d\n        "

/-- MondayColumnExtractor._build_query, over the stringified board
ids: the ids joined by comma-space, interpolated into the fixed
template. -/
def build_query (board_ids : List String) : String :=
  queryTextBefore ++ joinSep ", " board_ids ++ queryTextAfter

/-- The text of the query template immediately left of the ids list. -/
def queryIdsOpen : String := "boards(ids: ["

/-- The text of the query template immediately right of the ids list. -/
def queryIdsClose : String := "])"

/-- The query template text left of queryIdsOpen. -/
def queryHead : String := "\n            query \x7b\n                "

/-- The query template text right of queryIdsClose. -/
def queryTail : String :=
  " \x7b\n                    name\n                    columns \x7b\n                        id\n                        title\n                    \x7d\n                    items_page (limit: 500) \x7b\n                        items \x7b\n                            id\n                            name  # This is the \"Item\" column\n                            column_values \x7b\n                                id\n                                text\n                            \x7d\n                        \x7d\n                    \x7d\n                \x7d\n            \x7d\n        "

/-- One string occurs inside another: the character data splits around
the character data of the substring. -/
def occursIn (sub s : String) : Prop :=
  ∃ p q : List Char, s.data = p ++ sub.data ++ q

/-- Boolean test: the first character list is an initial run of the
second. -/
def leadsWith : List Char → List Char → Bool
  | [], _ => true
  | _ :: _, [] => false
  | a :: as, b :: bs => a == b && leadsWith as bs

/-- Boolean test: the first character list occurs contiguously inside
the second. -/
def hasRun (sub : List Char) : List Char → Bool
  | [] => leadsWith sub []
  | b :: bs => leadsWith sub (b :: bs) || hasRun sub bs

/-- The fixed decoded response of the first scenario of the spec. -/
def respC1 : Response :=
  ⟨some ⟨some [⟨some "B1", some [⟨"c1", "Status"⟩],
    some ⟨some [⟨some "1", some "Task A", some [⟨"c1", some "Done"⟩]⟩]⟩⟩]⟩⟩

/-- A decoded response whose single board declares a column whose id is
the string "Item" (titled "Renamed"), with one item named "A" carrying
no column values. -/
def respItemIdClash : Response :=
  ⟨some ⟨some [⟨some "B", some [⟨"Item", "Renamed"⟩],
    some ⟨some [⟨some "1", some "A", some []⟩]⟩⟩]⟩⟩

/-- A one-item board content used to instantiate universally quantified
theorems at a concrete input. -/
def itemsW : List Item := [⟨some "1", some "A", some []⟩]

/-- A decoded response whose top-level "data" key is absent. -/
def respNoData : Response := ⟨none⟩

/-! ## Helper lemmas about the dict model -/

theorem mem_dkeys_iff {α : Type} (d : List (String × α)) (k : String) :
    k ∈ dkeys d ↔ ∃ p ∈ d, p.1 = k := by
  simp [dkeys, List.mem_map]

theorem dget_eq_none_iff {α : Type} (d : List (String × α)) (k : String) :
    dget d k = none ↔ k ∉ dkeys d := by
  simp only [dget, Option.map_eq_none', List.find?_eq_none, dkeys,
    List.mem_map, not_exists, not_and]
  constructor
  · intro h p hp hpk
    exact h p hp (beq_iff_eq.mpr hpk)
  · intro h p hp hbeq
    exact h p hp (beq_iff_eq.mp hbeq)

theorem mem_dkeys_dinsert {α : Type} (d : List (String × α)) (k : String)
    (v : α) (a : String) :
    a ∈ dkeys (dinsert d k v) ↔ a ∈ dkeys d ∨ a = k := by
  unfold dinsert
  cases h : d.any (fun p => p.1 == k) with
  | false =>
    simp [h, dkeys, List.map_append]
  | true =>
    simp only [h, if_true]
    have hmap : dkeys (d.map (fun p => if p.1 == k then (k, v) else p)) =
        dkeys d := by
      unfold dkeys
      rw [List.map_map]
      apply List.map_congr_left
      intro p _
      by_cases hp : p.1 = k
      · simp [hp]
      · simp [hp]
    have hk : k ∈ dkeys d := by
      obtain ⟨p, hp, hpk⟩ := List.any_eq_true.mp h
      exact (mem_dkeys_iff d k).mpr ⟨p, hp, beq_iff_eq.mp hpk⟩
    rw [hmap]
    constructor
    · exact Or.inl
    · rintro (ha | rfl)
      · exact ha
      · exact hk

theorem find?_map_update {α : Type} (d : List (String × α)) (k : String)
    (v : α) (h : d.any (fun p => p.1 == k) = true) :
    (d.map (fun p => if p.1 == k then (k, v) else p)).find?
      (fun p => p.1 == k) = some (k, v) := by
  induction d with
  | nil => simp at h
  | cons p rest ih =>
    by_cases hp : p.1 = k
    · simp [List.find?, hp]
    · have hp' : (p.1 == k) = false := beq_eq_false_iff_ne.mpr hp
      have hrest : rest.any (fun p => p.1 == k) = true := by
        simpa [List.any_cons, hp'] using h
      simpa [List.find?, hp'] using ih hrest

theorem dget_dinsert_self {α : Type} (d : List (String × α)) (k : String)
    (v : α) : dget (dinsert d k v) k = some v := by
  unfold dinsert dget
  cases h : d.any (fun p => p.1 == k) with
  | false =>
    have hnone : d.find? (fun p => p.1 == k) = none := by
      rw [List.find?_eq_none]
      intro p hp
      exact fun hk => by simp [List.any_eq_false.mp h p hp] at hk
    simp [h, List.find?_append, hnone, List.find?]
  | true =>
    simp only [h, if_true]
    rw [find?_map_update d k v h]
    rfl

theorem mem_dkeys_foldl {α β : Type} (key : β → String) (val : β → α)
    (l : List β) (d0 : List (String × α)) (a : String) :
    a ∈ dkeys (l.foldl (fun d x => dinsert d (key x) (val x)) d0) ↔
      a ∈ dkeys d0 ∨ ∃ x ∈ l, key x = a := by
  induction l generalizing d0 with
  | nil => simp
  | cons x xs ih =>
    rw [List.foldl_cons, ih]
    rw [mem_dkeys_dinsert]
    constructor
    · rintro (⟨h | h⟩ | ⟨y, hy, hk⟩)
      · exact Or.inl h
      · exact Or.inr ⟨x, by simp, h.symm⟩
      · exact Or.inr ⟨y, by simp [hy], hk⟩
    · rintro (h | ⟨y, hy, hk⟩)
      · exact Or.inl (Or.inl h)
      · rcases List.mem_cons.mp hy with rfl | hy'
        · exact Or.inl (Or.inr hk.symm)
        · exact Or.inr ⟨y, hy', hk⟩

theorem mem_dkeys_row_dict (cvs : List ColumnValue) (a : String) :
    a ∈ dkeys (row_dict cvs) ↔ ∃ cv ∈ cvs, cv.id = a := by
  have h := mem_dkeys_foldl (fun cv : ColumnValue => cv.id)
    (fun cv => cv.text) cvs [] a
  simpa [row_dict, dkeys] using h

theorem mem_dkeys_itemRow (item : Item) (a : String) :
    a ∈ dkeys (itemRow item) ↔
      a = "Item" ∨ ∃ cv ∈ item.column_values.getD [], cv.id = a := by
  unfold itemRow
  rw [mem_dkeys_dinsert, mem_dkeys_row_dict]
  exact or_comm

theorem mem_addKeys (acc : List String) (r : Row) (a : String) :
    a ∈ addKeys acc r ↔ a ∈ acc ∨ a ∈ dkeys r := by
  unfold addKeys
  induction r generalizing acc with
  | nil => simp [dkeys]
  | cons p rest ih =>
    rw [List.foldl_cons, ih]
    have hstep : a ∈ (if acc.contains p.1 then acc else acc ++ [p.1]) ↔
        a ∈ acc ∨ a = p.1 := by
      cases hc : acc.contains p.1 with
      | true =>
        have hmem : p.1 ∈ acc := by simpa using hc
        simp only [hc, if_true]
        constructor
        · exact Or.inl
        · rintro (h | rfl)
          · exact h
          · exact hmem
      | false => simp [hc]
    rw [hstep]
    simp [dkeys]
    tauto

theorem mem_unionKeys (rows : List Row) (a : String) :
    a ∈ unionKeys rows ↔ ∃ r ∈ rows, a ∈ dkeys r := by
  unfold unionKeys
  have aux : ∀ (rs : List Row) (acc : List String),
      a ∈ rs.foldl addKeys acc ↔ a ∈ acc ∨ ∃ r ∈ rs, a ∈ dkeys r := by
    intro rs
    induction rs with
    | nil => intro acc; simp
    | cons r rest ih =>
      intro acc
      rw [List.foldl_cons, ih, mem_addKeys]
      constructor
      · rintro (⟨h | h⟩ | ⟨s, hs, hk⟩)
        · exact Or.inl h
        · exact Or.inr ⟨r, by simp, h⟩
        · exact Or.inr ⟨s, by simp [hs], hk⟩
      · rintro (h | ⟨s, hs, hk⟩)
        · exact Or.inl (Or.inl h)
        · rcases List.mem_cons.mp hs with rfl | hs'
          · exact Or.inl (Or.inr hk)
          · exact Or.inr ⟨s, hs', hk⟩
  simpa using aux rows []

/-! ## Claim theorems -/

/-- C1: on the fixed scenario response, the extraction pipeline returns
exactly one BoardResult, named "B1", whose table holds exactly one
record, with exactly the fields "Status" (value "Done") and "Item"
(value "Task A"). -/
theorem extract_scenario_c1 :
    extract respC1 =
      .ok [⟨"B1", ⟨["Status", "Item"],
        [[some (some "Done"), some (some "Task A")]]⟩⟩] := by
  rfl

/-- C4: an item whose list of column values is empty (or absent, hence
defaulted to empty) yields a record holding only the key "Item", mapped
to the display name of the item. -/
theorem empty_values_item_c4 (oid nm : Option String) :
    itemRow ⟨oid, nm, some []⟩ = [("Item", nm)]
    ∧ itemRow ⟨oid, nm, none⟩ = [("Item", nm)] :=
  ⟨rfl, rfl⟩

/-- C5: a board whose item list is empty yields an empty table, with no
rows and no columns, whatever the column metadata of the board says. -/
theorem empty_board_c5 (nm : String) (cols : Option (List Column)) :
    processBoard ⟨some nm, cols, some ⟨some []⟩⟩ = .ok ⟨nm, ⟨[], []⟩⟩ :=
  rfl

/-- C6: renaming with an empty column map is the identity on any
DataFrame, and a board with no column metadata produces an empty map. -/
theorem empty_map_rename_c6 :
    (∀ df : DataFrame, renameDF df [] = df)
    ∧ columnMapOf ((none : Option (List Column)).getD []) = [] := by
  constructor
  · intro df
    cases df with
    | mk cs vs =>
      show DataFrame.mk (cs.map (renameCol [])) vs = DataFrame.mk cs vs
      have hmap : cs.map (renameCol []) = cs := by
        have h1 : cs.map (renameCol []) = cs.map id :=
          List.map_congr_left (fun c _ => rfl)
        simpa using h1
      rw [hmap]
  · rfl

/-- C10: the record of every item maps the key "Item" to the display
name of the item, even when the column values of the item contain an
entry whose column id is the string "Item": the later assignment of the
display name overwrites any such column value. -/
theorem item_key_overwrite_c10 (item : Item) :
    dget (itemRow item) "Item" = some item.name := by
  unfold itemRow
  exact dget_dinsert_self _ _ _

/-- C2 (amended with at least one item): the assembled table has as its
column set exactly the union of the column ids appearing on any item
together with "Item"; each row dict carries exactly the keys of its own
column values plus "Item"; the cells are the lookups of each row dict at
the assembled columns, so a row lacking a column shows an absent cell. -/
theorem sparse_union_c2 (items : List Item) (h : items ≠ []) :
    (∀ c, c ∈ (extract_to_dataframe items).columns ↔
        (c = "Item" ∨ ∃ it ∈ items, ∃ cv ∈ it.column_values.getD [], cv.id = c))
    ∧ (∀ it ∈ items, ∀ k, k ∈ dkeys (itemRow it) ↔
        (k = "Item" ∨ ∃ cv ∈ it.column_values.getD [], cv.id = k))
    ∧ (extract_to_dataframe items).values =
        (items.map itemRow).map (fun r =>
          (extract_to_dataframe items).columns.map (fun c => dget r c))
    ∧ (∀ r ∈ items.map itemRow, ∀ c, c ∉ dkeys r → dget r c = none) := by
  refine ⟨?_, ?_, rfl, ?_⟩
  · intro c
    have hcols : (extract_to_dataframe items).columns =
        unionKeys (items.map itemRow) := rfl
    rw [hcols, mem_unionKeys]
    constructor
    · rintro ⟨r, hr, hk⟩
      obtain ⟨it, hit, rfl⟩ := List.mem_map.mp hr
      rcases (mem_dkeys_itemRow it c).mp hk with h1 | ⟨cv, hcv, hid⟩
      · exact Or.inl h1
      · exact Or.inr ⟨it, hit, cv, hcv, hid⟩
    · rintro (rfl | ⟨it, hit, cv, hcv, hid⟩)
      · obtain ⟨it, hit⟩ := List.exists_mem_of_ne_nil items h
        exact ⟨itemRow it, List.mem_map.mpr ⟨it, hit, rfl⟩,
          (mem_dkeys_itemRow it _).mpr (Or.inl rfl)⟩
      · exact ⟨itemRow it, List.mem_map.mpr ⟨it, hit, rfl⟩,
          (mem_dkeys_itemRow it _).mpr (Or.inr ⟨cv, hcv, hid⟩)⟩
  · intro it _ k
    exact mem_dkeys_itemRow it k
  · intro r _ c hc
    exact (dget_eq_none_iff r c).mpr hc

/-- C2, counterexample to the unamended claim: for a board with an empty
item list, the assembled table does not contain the display-name field
"Item" among its columns, although the claim asks for the union of the
item column ids together with the display-name field. -/
theorem sparse_union_c2_counterexample :
    (extract_to_dataframe ([] : List Item)).columns = []
    ∧ "Item" ∉ (extract_to_dataframe ([] : List Item)).columns :=
  ⟨rfl, by decide⟩

/-- C2, witness: the amended theorem applied to a concrete one-item
list. -/
theorem sparse_union_c2_witness :
    itemsW ≠ [] ∧
    ((∀ c, c ∈ (extract_to_dataframe itemsW).columns ↔
        (c = "Item" ∨ ∃ it ∈ itemsW, ∃ cv ∈ it.column_values.getD [], cv.id = c))
    ∧ (∀ it ∈ itemsW, ∀ k, k ∈ dkeys (itemRow it) ↔
        (k = "Item" ∨ ∃ cv ∈ it.column_values.getD [], cv.id = k))
    ∧ (extract_to_dataframe itemsW).values =
        (itemsW.map itemRow).map (fun r =>
          (extract_to_dataframe itemsW).columns.map (fun c => dget r c))
    ∧ (∀ r ∈ itemsW.map itemRow, ∀ c, c ∉ dkeys r → dget r c = none)) :=
  ⟨by decide, sparse_union_c2 itemsW (by decide)⟩

/-- C3 (amended): per board, the rename is applied to the columns of the
assembled table after assembly, replacing each label through the column
map and leaving the cells untouched; the label "Item" is unaffected
provided "Item" does not occur as a column id in the column map of the
board. -/
theorem rename_after_assembly_c3 (nm : String) (cols : Option (List Column))
    (items : List Item) :
    processBoard ⟨some nm, cols, some ⟨some items⟩⟩ =
      .ok ⟨nm, renameDF (extract_to_dataframe items)
        (columnMapOf (cols.getD []))⟩
    ∧ (renameDF (extract_to_dataframe items)
        (columnMapOf (cols.getD []))).columns
      = (extract_to_dataframe items).columns.map
          (renameCol (columnMapOf (cols.getD [])))
    ∧ (renameDF (extract_to_dataframe items)
        (columnMapOf (cols.getD []))).values
      = (extract_to_dataframe items).values
    ∧ (dget (columnMapOf (cols.getD [])) "Item" = none →
        renameCol (columnMapOf (cols.getD [])) "Item" = "Item") := by
  refine ⟨rfl, rfl, rfl, fun h => ?_⟩
  unfold renameCol
  rw [h]
  rfl

/-- C3, counterexample to the unamended claim: when the column metadata
of the board declares a column whose id is the string "Item", the rename
does relabel the display-name field, which disappears from the final
table. -/
theorem rename_item_clash_c3_counterexample :
    extract respItemIdClash = .ok [⟨"B", ⟨["Renamed"], [[some (some "A")]]⟩⟩]
    ∧ "Item" ∉ (DataFrame.mk ["Renamed"] [[some (some "A")]]).columns :=
  ⟨rfl, by decide⟩

/-- C3, witness: the amended theorem applied at a concrete board. -/
theorem rename_after_assembly_c3_witness :
    processBoard ⟨some "B", none, some ⟨some []⟩⟩ =
      .ok ⟨"B", renameDF (extract_to_dataframe [])
        (columnMapOf ((none : Option (List Column)).getD []))⟩
    ∧ (renameDF (extract_to_dataframe [])
        (columnMapOf ((none : Option (List Column)).getD []))).columns
      = (extract_to_dataframe ([] : List Item)).columns.map
          (renameCol (columnMapOf ((none : Option (List Column)).getD [])))
    ∧ (renameDF (extract_to_dataframe [])
        (columnMapOf ((none : Option (List Column)).getD []))).values
      = (extract_to_dataframe ([] : List Item)).values
    ∧ (dget (columnMapOf ((none : Option (List Column)).getD [])) "Item" = none →
        renameCol (columnMapOf ((none : Option (List Column)).getD []))
          "Item" = "Item") :=
  rename_after_assembly_c3 "B" none []

/-- C7: a column label absent from the column map is left unrenamed: its
image under the rename is itself, it still appears among the final
columns, and the final columns are the pointwise images of the assembled
ones. -/
theorem unmapped_unrenamed_c7 (df : DataFrame) (m : List (String × String))
    (c : String) (hc : c ∈ df.columns) (hm : dget m c = none) :
    renameCol m c = c
    ∧ c ∈ (renameDF df m).columns
    ∧ (renameDF df m).columns = df.columns.map (renameCol m) := by
  have h1 : renameCol m c = c := by
    unfold renameCol
    rw [hm]
    rfl
  refine ⟨h1, ?_, rfl⟩
  show c ∈ df.columns.map (renameCol m)
  exact List.mem_map.mpr ⟨c, hc, h1⟩

/-- C7, witness: the theorem applied at a concrete table and map. -/
theorem unmapped_unrenamed_c7_witness :
    "c9" ∈ (DataFrame.mk ["c9"] [[none]]).columns
    ∧ dget ([("c1", "Status")] : List (String × String)) "c9" = none
    ∧ (renameCol [("c1", "Status")] "c9" = "c9"
      ∧ "c9" ∈ (renameDF (DataFrame.mk ["c9"] [[none]])
          [("c1", "Status")]).columns
      ∧ (renameDF (DataFrame.mk ["c9"] [[none]])
          [("c1", "Status")]).columns
        = (DataFrame.mk ["c9"] [[none]]).columns.map
            (renameCol [("c1", "Status")])) :=
  ⟨by decide, by decide,
    unmapped_unrenamed_c7 ⟨["c9"], [[none]]⟩ [("c1", "Status")] "c9"
      (by decide) (by decide)⟩

/-! ## String occurrence lemmas for the query builder -/

theorem occursIn_append_left (sub a b : String) (h : occursIn sub a) :
    occursIn sub (a ++ b) := by
  obtain ⟨p, q, hp⟩ := h
  refine ⟨p, q ++ b.data, ?_⟩
  rw [String.data_append, hp]
  simp

theorem occursIn_append_right (sub a b : String) (h : occursIn sub b) :
    occursIn sub (a ++ b) := by
  obtain ⟨p, q, hp⟩ := h
  refine ⟨a.data ++ p, q, ?_⟩
  rw [String.data_append, hp]
  simp

theorem occursIn_self (s : String) : occursIn s s :=
  ⟨[], [], by simp⟩

theorem occursIn_joinSep (sep : String) (l : List String) (a : String)
    (h : a ∈ l) : occursIn a (joinSep sep l) := by
  induction l with
  | nil => cases h
  | cons x xs ih =>
    cases xs with
    | nil =>
      rcases List.mem_cons.mp h with rfl | h'
      · exact occursIn_self a
      · cases h'
    | cons y ys =>
      rcases List.mem_cons.mp h with rfl | h'
      · exact occursIn_append_left _ _ _
          (occursIn_append_left _ _ _ (occursIn_self a))
      · exact occursIn_append_right _ _ _ (ih h')

theorem leadsWith_sound (sub : List Char) :
    ∀ s : List Char, leadsWith sub s = true → ∃ q, s = sub ++ q := by
  induction sub with
  | nil => exact fun s _ => ⟨s, rfl⟩
  | cons a as ih =>
    intro s h
    cases s with
    | nil => simp [leadsWith] at h
    | cons b bs =>
      simp only [leadsWith, Bool.and_eq_true, beq_iff_eq] at h
      obtain ⟨hab, h2⟩ := h
      subst hab
      obtain ⟨q, hq⟩ := ih bs h2
      exact ⟨q, by simp [hq]⟩

theorem hasRun_sound (sub : List Char) :
    ∀ s : List Char, hasRun sub s = true → ∃ p q, s = p ++ sub ++ q := by
  intro s
  induction s with
  | nil =>
    intro h
    obtain ⟨q, hq⟩ := leadsWith_sound sub [] (by simpa [hasRun] using h)
    exact ⟨[], q, by simpa using hq⟩
  | cons b bs ih =>
    intro h
    simp only [hasRun, Bool.or_eq_true] at h
    rcases h with h1 | h2
    · obtain ⟨q, hq⟩ := leadsWith_sound sub (b :: bs) h1
      exact ⟨[], q, by simpa using hq⟩
    · obtain ⟨p, q, hq⟩ := ih h2
      exact ⟨b :: p, q, by simp [hq]⟩

theorem occursIn_of_hasRun (sub s : String)
    (h : hasRun sub.data s.data = true) : occursIn sub s :=
  hasRun_sound sub.data s.data h

set_option maxRecDepth 100000 in
/-- C8: the built query is the fixed template around the ids joined by
comma-space; every identifier occurs verbatim in it; the joined ids sit
inside the boards(ids: [...]) argument; and the fixed text requests the
board name, column metadata id and title, an items page capped at limit
500, and column values restricted to id and text. -/
theorem build_query_c8 (ids : List String) (h : ids ≠ []) :
    build_query ids = queryTextBefore ++ joinSep ", " ids ++ queryTextAfter
    ∧ (∀ s ∈ ids, occursIn s (build_query ids))
    ∧ occursIn (queryIdsOpen ++ joinSep ", " ids ++ queryIdsClose)
        (build_query ids)
    ∧ occursIn "name" (build_query ids)
    ∧ occursIn "columns \x7b\n                        id\n                        title" (build_query ids)
    ∧ occursIn "items_page (limit: 500)" (build_query ids)
    ∧ occursIn "items \x7b\n                            id\n                            name" (build_query ids)
    ∧ occursIn "column_values \x7b\n                                id\n                                text" (build_query ids) := by
  have hb : queryTextBefore = queryHead ++ queryIdsOpen := by decide
  have ha : queryTextAfter = queryIdsClose ++ queryTail := by decide
  refine ⟨rfl, ?_, ?_, ?_, ?_, ?_, ?_, ?_⟩
  · intro s hs
    exact occursIn_append_left _ _ _
      (occursIn_append_right _ _ _ (occursIn_joinSep _ _ _ hs))
  · refine ⟨queryHead.data, queryTail.data, ?_⟩
    show (queryTextBefore ++ joinSep ", " ids ++ queryTextAfter).data = _
    rw [hb, ha]
    simp [String.data_append, List.append_assoc]
  · exact occursIn_append_right _ _ _ (occursIn_of_hasRun _ _ (by decide))
  · exact occursIn_append_right _ _ _ (occursIn_of_hasRun _ _ (by decide))
  · exact occursIn_append_right _ _ _ (occursIn_of_hasRun _ _ (by decide))
  · exact occursIn_append_right _ _ _ (occursIn_of_hasRun _ _ (by decide))
  · exact occursIn_append_right _ _ _ (occursIn_of_hasRun _ _ (by decide))

/-- C8, witness: the theorem applied to a concrete one-element id
list. -/
theorem build_query_c8_witness :
    (["123"] : List String) ≠ [] ∧
    (build_query ["123"] =
        queryTextBefore ++ joinSep ", " ["123"] ++ queryTextAfter
    ∧ (∀ s ∈ (["123"] : List String), occursIn s (build_query ["123"]))
    ∧ occursIn (queryIdsOpen ++ joinSep ", " ["123"] ++ queryIdsClose)
        (build_query ["123"])
    ∧ occursIn "name" (build_query ["123"])
    ∧ occursIn "columns \x7b\n                        id\n                        title" (build_query ["123"])
    ∧ occursIn "items_page (limit: 500)" (build_query ["123"])
    ∧ occursIn "items \x7b\n                            id\n                            name" (build_query ["123"])
    ∧ occursIn "column_values \x7b\n                                id\n                                text" (build_query ["123"])) :=
  ⟨by decide, build_query_c8 ["123"] (by decide)⟩

/-! ## Error propagation lemmas -/

theorem processBoard_err (b : Board)
    (h : b.name = none ∨ b.items_page = none ∨
      ∃ ip, b.items_page = some ip ∧ ip.items = none) :
    ∃ e, processBoard b = .error e := by
  rcases h with h | h | ⟨ip, hip, hit⟩
  · refine ⟨"KeyError: name", ?_⟩
    unfold processBoard
    rw [h]
  · cases hbn : b.name with
    | none =>
      refine ⟨"KeyError: name", ?_⟩
      unfold processBoard
      rw [hbn]
    | some n =>
      refine ⟨"KeyError: items_page", ?_⟩
      unfold processBoard
      rw [hbn, h]
  · obtain ⟨ipi⟩ := ip
    have hit' : ipi = none := hit
    subst hit'
    cases hbn : b.name with
    | none =>
      refine ⟨"KeyError: name", ?_⟩
      unfold processBoard
      rw [hbn]
    | some n =>
      refine ⟨"KeyError: items", ?_⟩
      unfold processBoard
      rw [hbn, hip]

theorem extractBoards_err (boards : List Board) (b : Board) (hb : b ∈ boards)
    (he : ∃ e, processBoard b = .error e) :
    ∃ e, extractBoards boards = .error e := by
  induction boards with
  | nil => cases hb
  | cons x xs ih =>
    cases hx : processBoard x with
    | error e =>
      refine ⟨e, ?_⟩
      show (do
        let r ← processBoard x
        let rs ← extractBoards xs
        Except.ok (r :: rs) : Except String (List BoardData)) = Except.error e
      rw [hx]
      rfl
    | ok r =>
      rcases List.mem_cons.mp hb with rfl | hb'
      · obtain ⟨e, he'⟩ := he
        rw [hx] at he'
        exact Except.noConfusion he'
      · obtain ⟨e', h'⟩ := ih hb'
        refine ⟨e', ?_⟩
        show (do
          let r ← processBoard x
          let rs ← extractBoards xs
          Except.ok (r :: rs) : Except String (List BoardData)) = Except.error e'
        rw [hx]
        show (do
          let rs ← extractBoards xs
          Except.ok (r :: rs) : Except String (List BoardData)) = Except.error e'
        rw [h']
        rfl

/-- C9: whenever the "data" key, the "boards" key under it, or on any
board one of the keys "name", "items_page", or "items" under it is
absent, extract returns an error and never an ok list, partial or not. -/
theorem missing_keys_error_c9 (resp : Response)
    (h : resp.data = none
      ∨ (∃ d, resp.data = some d ∧ d.boards = none)
      ∨ (∃ d boards b, resp.data = some d ∧ d.boards = some boards ∧
          b ∈ boards ∧
          (b.name = none ∨ b.items_page = none ∨
            ∃ ip, b.items_page = some ip ∧ ip.items = none))) :
    (∃ e, extract resp = .error e) ∧ ∀ l, extract resp ≠ .ok l := by
  have main : ∃ e, extract resp = .error e := by
    rcases h with h | ⟨d, hd, hbd⟩ | ⟨d, boards, b, hd, hbs, hmem, hkey⟩
    · refine ⟨"KeyError: data", ?_⟩
      unfold extract
      rw [h]
    · obtain ⟨dbs⟩ := d
      have hbd' : dbs = none := hbd
      subst hbd'
      refine ⟨"KeyError: boards", ?_⟩
      unfold extract
      rw [hd]
    · obtain ⟨dbs⟩ := d
      have hbs' : dbs = some boards := hbs
      subst hbs'
      obtain ⟨e, he⟩ := extractBoards_err boards b hmem (processBoard_err b hkey)
      refine ⟨e, ?_⟩
      unfold extract
      rw [hd]
      exact he
  refine ⟨main, ?_⟩
  obtain ⟨e, he⟩ := main
  intro l hl
  rw [he] at hl
  exact Except.noConfusion hl

/-- C9, witness: the theorem applied to the response lacking "data". -/
theorem missing_keys_error_c9_witness :
    (respNoData.data = none
      ∨ (∃ d, respNoData.data = some d ∧ d.boards = none)
      ∨ (∃ d boards b, respNoData.data = some d ∧ d.boards = some boards ∧
          b ∈ boards ∧
          (b.name = none ∨ b.items_page = none ∨
            ∃ ip, b.items_page = some ip ∧ ip.items = none)))
    ∧ ((∃ e, extract respNoData = .error e) ∧
        ∀ l, extract respNoData ≠ .ok l) :=
  ⟨Or.inl rfl, missing_keys_error_c9 respNoData (Or.inl rfl)⟩

end Monday
